import Mathlib

/-!
# Verification of the `sentinel-password` validation engine

Shallow embedding of the `@sentinel-password/core` validation engine:
the seven atomic password checks, the Bloom-filter common-password index
(including the offline generator's `add`/`test`), and the aggregating
`validatePassword` function, together with theorems settling the spec
claims about them.

Modelling conventions:
* a JavaScript string is a `List Char` (one element per UTF-16 code unit;
  all strings occurring in the code and its data are in the Basic
  Multilingual Plane, where `Char.toNat` coincides with `charCodeAt`);
* JavaScript `number` option fields are `Option Int` (absent = `none`,
  with the destructuring default applied via `getD` exactly where the
  source applies it);
* 32-bit machine arithmetic is explicit: `toInt32` wraps an `Int` to the
  signed 32-bit range, and unsigned wrapping is `% 2 ^ 32`;
* message strings are Lean `String`s built by the same concatenations as
  the source template literals.
-/

namespace Sentinel

/-- Unicode simple lower-casing for the character ranges that occur in this
repository's code and data (ASCII letters and the Cyrillic block used by the
keyboard-pattern table); all other characters are returned unchanged, which
matches JavaScript `toLowerCase` on those ranges. -/
def charLower (c : Char) : Char :=
  if 'A' ≤ c ∧ c ≤ 'Z' then Char.ofNat (c.toNat + 32)
  else if 0x410 ≤ c.toNat ∧ c.toNat ≤ 0x42F then Char.ofNat (c.toNat + 32)
  else if 0x400 ≤ c.toNat ∧ c.toNat ≤ 0x40F then Char.ofNat (c.toNat + 80)
  else c

/-- JavaScript `String.prototype.toLowerCase` on the modelled ranges. -/
def jsToLower (s : List Char) : List Char := s.map charLower

/-- The characters stripped by JavaScript `String.prototype.trim`
(the common whitespace code points). -/
def isJsSpace (c : Char) : Bool :=
  c = ' ' || c = '\t' || c = '\n' || c = '\r' || c.toNat = 0x0B || c.toNat = 0x0C

/-- JavaScript `String.prototype.trim`. -/
def jsTrim (s : List Char) : List Char :=
  ((s.dropWhile isJsSpace).reverse.dropWhile isJsSpace).reverse

/-- JavaScript `String.prototype.includes`: substring containment. -/
def jsIncludes (hay needle : List Char) : Bool :=
  match hay with
  | [] => needle.isEmpty
  | _ :: t => needle.isPrefixOf hay || jsIncludes t needle

/-! ## Data model (`src/packages/core/src/types.ts`) -/

/-- Result of a single validator: `{passed: bool, message?: string}`. -/
structure ValidatorCheck where
  passed : Bool
  message : Option String := none
  deriving Repr, DecidableEq

/-- The caller-supplied option bag (`ValidatorOptions`); `none` is an absent
field, the per-validator destructuring defaults are applied by `getD` at
each use site, as in the source. -/
structure ValidatorOptions where
  minLength : Option Int := none
  maxLength : Option Int := none
  requireUppercase : Option Bool := none
  requireLowercase : Option Bool := none
  requireDigit : Option Bool := none
  requireSymbol : Option Bool := none
  maxRepeatedChars : Option Int := none
  checkSequential : Option Bool := none
  checkKeyboardPatterns : Option Bool := none
  checkCommonPasswords : Option Bool := none
  personalInfo : Option (List (List Char)) := none
  deriving Repr

/-! ## Length validator
(`src/packages/core/src/validators/length.ts`, the copy at
`sequential.ts` lines 155–180 of the concatenated source) -/

/-- Source `validateLength`: fails "too short" when `length < minLength` (checked
first), else "too long" when `length > maxLength`; defaults 8 / 128. -/
def validateLength (password : List Char) (options : ValidatorOptions) : ValidatorCheck :=
  let minLength : Int := options.minLength.getD 8
  let maxLength : Int := options.maxLength.getD 128
  let length : Int := password.length
  if length < minLength then
    { passed := false
      message := some ("Password must be at least " ++ toString minLength ++ " characters") }
  else if length > maxLength then
    { passed := false
      message := some ("Password must be at most " ++ toString maxLength ++ " characters") }
  else
    { passed := true }

/-! ## Character-type validator
(`src/packages/core/src/validators/character-types.ts`) -/

/-- Source `/[A-Z]/.test(password)` -/
def hasUppercase (password : List Char) : Bool :=
  password.any fun c => 'A' ≤ c && c ≤ 'Z'

/-- Source `/[a-z]/.test(password)` -/
def hasLowercase (password : List Char) : Bool :=
  password.any fun c => 'a' ≤ c && c ≤ 'z'

/-- Source `/\d/.test(password)` -/
def hasDigit (password : List Char) : Bool :=
  password.any fun c => '0' ≤ c && c ≤ '9'

/-- The fixed symbol class `[!@#$%^&*()_+\-=[\]{};':"\\|,.<>/?]`. -/
def symbolChars : List Char :=
  ['!', '@', '#', '$', '%', '^', '&', '*', '(', ')', '_', '+', '-', '=',
   '[', ']', '\x7b', '\x7d', ';', '\'', ':', '"', '\\', '|', ',', '.', '<', '>', '/', '?']

/-- Source `/[!@#$%^&*()_+\-=[\]{};':"\\|,.<>/?]/.test(password)` -/
def hasSymbol (password : List Char) : Bool :=
  password.any fun c => symbolChars.contains c

/-- The `missing` list accumulated by `validateCharacterTypes`, in
requirement order (uppercase, lowercase, digit, symbol). -/
def missingClasses (password : List Char) (options : ValidatorOptions) : List String :=
  (if options.requireUppercase.getD false && !hasUppercase password
    then ["uppercase letter"] else []) ++
  (if options.requireLowercase.getD false && !hasLowercase password
    then ["lowercase letter"] else []) ++
  (if options.requireDigit.getD false && !hasDigit password then ["digit"] else []) ++
  (if options.requireSymbol.getD false && !hasSymbol password then ["symbol"] else [])

/-- Source `validateCharacterTypes`: collects the missing required classes in
requirement order and fails with one message enumerating them. -/
def validateCharacterTypes (password : List Char) (options : ValidatorOptions) : ValidatorCheck :=
  let missing : List String := missingClasses password options
  if missing.length > 0 then
    { passed := false
      message := some ("Password must contain at least one " ++ String.intercalate ", " missing) }
  else
    { passed := true }

/-! ## Repetition validator
(`src/packages/core/src/validators/repetition.ts`) -/

/-- The single left-to-right scan of `validateRepetition`: `cur` and `count`
are the tracked current character and run counter, `rest` the unread suffix;
returns `false` the moment a run counter exceeds the limit. -/
def repScan (maxRepeatedChars : Int) : List Char → Char → Nat → Bool
  | [], _, _ => true
  | c :: rest, cur, count =>
    if c = cur then
      if ((count + 1 : Nat) : Int) > maxRepeatedChars then false
      else repScan maxRepeatedChars rest cur (count + 1)
    else repScan maxRepeatedChars rest c 1

/-- Source `validateRepetition`: single-pass consecutive-run detection with limit
`maxRepeatedChars` (default 3); empty input passes immediately. -/
def validateRepetition (password : List Char) (options : ValidatorOptions) : ValidatorCheck :=
  let maxRepeatedChars : Int := options.maxRepeatedChars.getD 3
  match password with
  | [] => { passed := true }
  | first :: rest =>
    if repScan maxRepeatedChars rest first 1 then
      { passed := true }
    else
      { passed := false
        message := some ("Password contains too many repeated characters (max " ++
          toString maxRepeatedChars ++ ")") }

/-! ## Sequential validator
(`src/packages/core/src/validators/sequential.ts` lines 10–59) -/

/-- Source `hasSequentialPattern`: scans every window of three consecutive
characters for an ascending (`+1, +1`) or descending (`-1, -1`) run of
character codes. -/
def hasSequentialPattern : List Char → Bool
  | c1 :: c2 :: c3 :: rest =>
    if (c2.toNat : Int) = (c1.toNat : Int) + 1 ∧ (c3.toNat : Int) = (c2.toNat : Int) + 1 then
      true
    else if (c2.toNat : Int) = (c1.toNat : Int) - 1 ∧ (c3.toNat : Int) = (c2.toNat : Int) - 1 then
      true
    else
      hasSequentialPattern (c2 :: c3 :: rest)
  | _ => false

/-- Source `validateSequential`: disabled by the `checkSequential` toggle
(default true); otherwise fails iff `hasSequentialPattern` finds a window. -/
def validateSequential (password : List Char) (options : ValidatorOptions) : ValidatorCheck :=
  let checkSequential := options.checkSequential.getD true
  if !checkSequential then
    { passed := true }
  else if hasSequentialPattern password then
    { passed := false
      message := some "Password contains sequential characters (e.g., abc, 123)" }
  else
    { passed := true }

/-! ## Keyboard-pattern validator
(`src/packages/core/src/validators/keyboard-pattern.ts`) -/

/-- Source `KEYBOARD_PATTERNS`: the fixed pattern table (QWERTY, AZERTY, QWERTZ,
Dvorak, Colemak, Cyrillic ЙЦУКЕН, numeric rows/keypad), in source order,
duplicates included. -/
def KEYBOARD_PATTERNS : List (List Char) :=
  [ -- QWERTY full rows
    "qwertyuiop", "asdfghjkl", "zxcvbnm",
    -- QWERTY common typing patterns
    "qwert", "werty", "asdfg", "sdfgh", "zxcvb", "xcvbn",
    -- QWERTY short sequences
    "qwe", "asd", "zxc", "rty", "fgh", "cvb", "poi", "lkj", "mnb",
    -- QWERTY columns
    "1qaz", "2wsx", "3edc", "4rfv", "5tgb", "6yhn", "7ujm", "8ik", "9ol", "0p",
    -- QWERTY diagonals
    "qaz", "wsx", "edc", "zaq", "xsw", "cde",
    -- AZERTY full rows
    "azertyuiop", "qsdfghjklm", "wxcvbn",
    -- AZERTY common patterns
    "azert", "zerty", "qsdfg", "sdfgh", "wxcvb",
    -- AZERTY short sequences
    "aze", "qsd", "wxc",
    -- QWERTZ full rows
    "qwertzuiop", "asdfghjkl", "yxcvbnm",
    -- QWERTZ common patterns
    "qwertz", "asdfg", "yxcvb",
    -- QWERTZ short sequences
    "qwe", "asd", "yxc",
    -- Dvorak full rows
    "pyfgcrl", "aoeuidhtns", "qjkxbmwvz",
    -- Dvorak common patterns
    "aoeu", "htns", "qjkx",
    -- Colemak full rows
    "qwfpgjluy", "arstdhneio", "zxcvbkm",
    -- Colemak common patterns
    "arst", "dhne", "zxcv",
    -- Cyrillic full rows
    "йцукенгшщзхъ", "фывапролджэ", "ячсмитьбю",
    -- Cyrillic common patterns
    "йцукен", "фывап", "ячсми", "цукен", "ываа",
    -- Numeric row
    "1234567890", "0987654321",
    -- Numeric keypad rows
    "789", "456", "123",
    -- Numeric keypad columns
    "741", "852", "963", "7410", "8520", "9630" ].map String.toList

/-- The pattern loop of `validateKeyboardPattern`: for each table entry test
the lower-cased password for the entry and then for its reversal, returning
at the first match. -/
def kbScan (lowercase : List Char) : List (List Char) → Bool
  | [] => false
  | pattern :: rest =>
    if jsIncludes lowercase pattern then true
    else if jsIncludes lowercase pattern.reverse then true
    else kbScan lowercase rest

/-- Source `validateKeyboardPattern`: disabled by the `checkKeyboardPatterns`
toggle (default true); otherwise lower-cases the password and scans the
pattern table forward and reversed. -/
def validateKeyboardPattern (password : List Char) (options : ValidatorOptions) : ValidatorCheck :=
  let checkKeyboardPatterns := options.checkKeyboardPatterns.getD true
  if !checkKeyboardPatterns then
    { passed := true }
  else if kbScan (jsToLower password) KEYBOARD_PATTERNS then
    { passed := false
      message := some "Password contains common keyboard patterns" }
  else
    { passed := true }

/-! ## Bloom filter (`src/unnamed/part_005`: the generator's `hashString`,
`getHashes`, `add`, `test`, and the emitted validator's `hashString`,
`getHashes`, `mightBeCommon`, `validateCommonPassword`) -/

/-- Source `BLOOM_SIZE = 12000` -/
def BLOOM_SIZE : Nat := 12000

/-- Source `HASH_COUNT = 7` -/
def HASH_COUNT : Nat := 7

/-- Source `BITS_PER_INT32 = 32` -/
def BITS_PER_INT32 : Nat := 32

/-- Source `ARRAY_SIZE = Math.ceil(BLOOM_SIZE / BITS_PER_INT32) = 375` -/
def ARRAY_SIZE : Nat := (BLOOM_SIZE + BITS_PER_INT32 - 1) / BITS_PER_INT32

/-- JavaScript `ToInt32`: wrap an integer to the signed 32-bit range. -/
def toInt32 (x : Int) : Int := (x + 2 ^ 31) % 2 ^ 32 - 2 ^ 31

/-- One iteration of the `hashString` loop:
`hash = (hash << 5) - hash + char; hash = hash | 0`.  `hash << 5` is the
JavaScript 32-bit shift, i.e. `ToInt32` of `32 * ToInt32 hash`; the
subtraction and addition are exact (the operands are small enough for
float64), and the trailing `| 0` is another `ToInt32`. -/
def hashStep (hash : Int) (char : Nat) : Int :=
  toInt32 (toInt32 (toInt32 hash * 32) - hash + char)

/-- The signed 32-bit value accumulated by the `hashString` loop before the
final `Math.abs`. -/
def hashStringSigned (str : List Char) (seed : Int) : Int :=
  str.foldl (fun hash c => hashStep hash c.toNat) seed

/-- Source `hashString(str, seed)`: the rolling hash followed by `Math.abs`. -/
def hashString (str : List Char) (seed : Int) : Nat :=
  (hashStringSigned str seed).natAbs

/-- Source `getHashes`: double hashing, `hash = (hash1 + i * hash2) >>> 0` then
`hash % BLOOM_SIZE` for `i = 0 .. HASH_COUNT - 1`.  The sum is below
`2 ^ 53`, so `>>> 0` is exactly reduction mod `2 ^ 32`. -/
def getHashes (str : List Char) : List Nat :=
  (List.range HASH_COUNT).map fun i =>
    ((hashString str 0 + i * hashString str 1) % 2 ^ 32) % BLOOM_SIZE

/-- Read word `i` of the filter state (an in-bounds `Int32Array` read; every
access below is at index `hash / 32 < ARRAY_SIZE`).  Words are carried as
their unsigned 32-bit patterns. -/
def wordOf (filter : List Nat) (i : Nat) : Nat := filter.getD i 0

/-- Set one bit: `bloomFilter[hash / 32] |= 1 << (hash % 32)`. -/
def setBitAt (filter : List Nat) (hash : Nat) : List Nat :=
  filter.set (hash / BITS_PER_INT32)
    ((wordOf filter (hash / BITS_PER_INT32)) ||| (1 <<< (hash % BITS_PER_INT32)))

/-- Probe one bit: `(bloomFilter[hash / 32] & (1 << (hash % 32))) !== 0`.
The signed/unsigned reading of the word does not matter because `===  0`
only looks at one bit of the 32-bit pattern. -/
def testBitAt (filter : List Nat) (hash : Nat) : Bool :=
  (wordOf filter (hash / BITS_PER_INT32)) &&& (1 <<< (hash % BITS_PER_INT32)) != 0

/-- The generator's `add(str)`: lower-case, hash, set every probed bit. -/
def add (filter : List Nat) (str : List Char) : List Nat :=
  (getHashes (jsToLower str)).foldl setBitAt filter

/-- The generator's `test(str)`: lower-case, hash, require every probed bit
(short-circuiting on the first unset bit, as `List.all` does). -/
def test (filter : List Nat) (str : List Char) : Bool :=
  (getHashes (jsToLower str)).all (testBitAt filter)

/-- The freshly constructed `new Int32Array(ARRAY_SIZE)`: all zero. -/
def bloomInit : List Nat := List.replicate ARRAY_SIZE 0

/-- The emitted validator's `mightBeCommon(password)`, parameterised by the
`BLOOM_BUCKETS` constant (the generator's output, not present in the
sources).  Its extra `bucket === undefined` out-of-bounds guard coincides
with reading the word as 0, which also returns `false`. -/
def mightBeCommon (buckets : List Nat) (password : List Char) : Bool :=
  (getHashes (jsToLower password)).all (testBitAt buckets)

/-- Source `validateCommonPassword`: disabled by the `checkCommonPasswords` toggle
(default true) and vacuously passing on the empty string; otherwise fails
iff `mightBeCommon`. -/
def validateCommonPassword (buckets : List Nat) (password : List Char)
    (options : ValidatorOptions) : ValidatorCheck :=
  let checkCommonPasswords := options.checkCommonPasswords.getD true
  if !checkCommonPasswords || password.length == 0 then
    { passed := true }
  else if mightBeCommon buckets password then
    { passed := false
      message := some "Password is too common. Please choose a more unique password." }
  else
    { passed := true }

/-! ## Personal-information validator
(`src/packages/core/src/validators/personal-info.ts`, the copy at
`sequential.ts` lines 282–348 of the concatenated source) -/

/-- Source `extractUsername(email)`: the part before the first `@`, but only when
`indexOf('@') > 0`; otherwise the input unchanged. -/
def extractUsername (email : List Char) : List Char :=
  let atIndex : Int :=
    match email.findIdx? (· = '@') with
    | some i => (i : Int)
    | none => -1
  if atIndex > 0 then email.take atIndex.toNat else email

/-- Source `normalizePersonalInfo(info)`: lower-case, trim, and extract the email
local part when the entry contains `@`. -/
def normalizePersonalInfo (info : List Char) : List Char :=
  let normalized := jsTrim (jsToLower info)
  if normalized.contains '@' then extractUsername normalized else normalized

/-- The entry loop of `validatePersonalInfo`: normalize each entry, skip it
when shorter than 3 characters, fail on the first entry contained in the
lower-cased password. -/
def personalInfoScan (lowerPassword : List Char) : List (List Char) → Bool
  | [] => true
  | info :: rest =>
    let normalized := normalizePersonalInfo info
    if normalized.length < 3 then personalInfoScan lowerPassword rest
    else if jsIncludes lowerPassword normalized then false
    else personalInfoScan lowerPassword rest

/-- Source `validatePersonalInfo`: passes immediately when the list or the
password is empty; otherwise runs the entry loop. -/
def validatePersonalInfo (password : List Char) (options : ValidatorOptions) : ValidatorCheck :=
  let personalInfo := options.personalInfo.getD []
  if personalInfo.length == 0 || password.length == 0 then
    { passed := true }
  else if personalInfoScan (jsToLower password) personalInfo then
    { passed := true }
  else
    { passed := false
      message := some "Password contains personal information" }

/-! ## Aggregator (`src/packages/core/src/index.ts` lines 46–256) -/

/-- Source `STRENGTH_LABELS` -/
def STRENGTH_LABELS : List String :=
  ["very-weak", "weak", "medium", "strong", "very-strong"]

/-- The `feedback` field of a `ValidationResult`. -/
structure Feedback where
  warning : Option String
  suggestions : List String
  deriving Repr, DecidableEq

/-- The engine's output `ValidationResult`; `checks` is the
`Record<CheckId, boolean>` as an ordered association list in the record's
key order. -/
structure ValidationResult where
  valid : Bool
  score : Nat
  strength : String
  feedback : Feedback
  checks : List (String × Bool)
  deriving Repr, DecidableEq

/-- One `if (!r.passed && r.message) suggestions.push(r.message)` step; a
message is truthy when it is present and non-empty. -/
def pushSuggestion (suggestions : List String) (r : ValidatorCheck) : List String :=
  if !r.passed then
    match r.message with
    | some m => if m = "" then suggestions else suggestions ++ [m]
    | none => suggestions
  else suggestions

/-- The seven validator results in the order the aggregator runs them:
length, character-types, repetition, sequential, common-password,
personal-info, keyboard-pattern. -/
def runOrderResults (buckets : List Nat) (password : List Char)
    (options : ValidatorOptions) : List ValidatorCheck :=
  [validateLength password options,
   validateCharacterTypes password options,
   validateRepetition password options,
   validateSequential password options,
   validateCommonPassword buckets password options,
   validatePersonalInfo password options,
   validateKeyboardPattern password options]

/-- Source `validatePassword(password, options)`, parameterised by the Bloom
filter's `BLOOM_BUCKETS` constant.  `checks` keeps the initialisation
order of the record literal (lines 182–190); suggestions are pushed in run
order; `score = Math.min(4, Math.floor(ratio * 5))` — for the eight
possible values of `passedChecks / 7` the float64 computation rounds to
the same floor as exact rational arithmetic, so it is embedded as natural
division `passedChecks * 5 / 7`. -/
def validatePassword (buckets : List Nat) (password : List Char)
    (options : ValidatorOptions) : ValidationResult :=
  let lengthResult := validateLength password options
  let charTypesResult := validateCharacterTypes password options
  let repetitionResult := validateRepetition password options
  let sequentialResult := validateSequential password options
  let commonPasswordResult := validateCommonPassword buckets password options
  let personalInfoResult := validatePersonalInfo password options
  let keyboardPatternResult := validateKeyboardPattern password options
  let checks : List (String × Bool) :=
    [("length", lengthResult.passed),
     ("characterTypes", charTypesResult.passed),
     ("repetition", repetitionResult.passed),
     ("sequential", sequentialResult.passed),
     ("keyboardPattern", keyboardPatternResult.passed),
     ("commonPassword", commonPasswordResult.passed),
     ("personalInfo", personalInfoResult.passed)]
  let suggestions : List String :=
    (runOrderResults buckets password options).foldl pushSuggestion []
  let passedChecks : Nat := (checks.map Prod.snd).countP (fun b => b)
  let totalChecks : Nat := checks.length
  let score : Nat := min 4 (if totalChecks > 0 then passedChecks * 5 / totalChecks else 0)
  let firstSuggestion : Option String :=
    if suggestions.length > 0 then suggestions.head? else none
  { valid := (checks.map Prod.snd).all (fun b => b)
    score
    strength := STRENGTH_LABELS.getD score "very-weak"
    feedback := { warning := firstSuggestion, suggestions }
    checks }

/-! ## Specification-side definitions

These definitions follow the wording of the spec / claims — not the
source — and exist to be compared against the source-derived definitions
above. -/

/-- The claim's probe-position formula, taken literally:
`position_i = (h1 + i*h2) mod m` where `h1`, `h2` are the signed 32-bit
polynomial rolling hashes (seeds 0 and 1) — with neither the `Math.abs`
the code applies to the hashes nor the unsigned 32-bit wrap (`>>> 0`) the
code applies to the sum. -/
def claimPositions (str : List Char) : List Int :=
  (List.range HASH_COUNT).map fun i =>
    (hashStringSigned str 0 + (i : Int) * hashStringSigned str 1) % (BLOOM_SIZE : Int)

/-- The claim's query, taken literally: lower-case, probe the bits at
`claimPositions`, true iff all are set. -/
def claimMightContain (buckets : List Nat) (password : List Char) : Bool :=
  (claimPositions (jsToLower password)).all fun p => testBitAt buckets p.toNat

/-- The claim's rolling hash in its own words:
`hash = hash*31 + charCode`, wrapped to signed 32-bit at each step. -/
def specRollingHash (str : List Char) (seed : Int) : Int :=
  str.foldl (fun hash c => toInt32 (hash * 31 + c.toNat)) seed

/-- The amended probe-position formula:
`position_i = ((|h1| + i*|h2|) mod 2^32) mod m` where `h1`, `h2` are the
signed 32-bit rolling hashes and `|·|` is the absolute value
(`Math.abs`). -/
def amendedPositions (str : List Char) : List Nat :=
  (List.range 7).map fun i =>
    (((specRollingHash str 0).natAbs + i * (specRollingHash str 1).natAbs) % 2 ^ 32) % 12000

/-- The amended query: lower-case, probe bit `p % 32` of packed word
`p / 32` for every amended position `p`, true iff all are set. -/
def amendedMightContain (buckets : List Nat) (password : List Char) : Bool :=
  (amendedPositions (jsToLower password)).all fun p =>
    Nat.testBit (wordOf buckets (p / 32)) (p % 32)

/-- A concrete bucket array for refuting the literal claim: exactly the
bits at the claim's literal positions for "password" are set. -/
def claimOnlyBuckets : List Nat :=
  (claimPositions (jsToLower ("password".toList))).foldl
    (fun st p => setBitAt st p.toNat) bloomInit

/-- Claim C9's entry normalization, taken literally: lower-case, trim, and
replace an entry containing `@` by the substring before the first `@`,
regardless of where the `@` sits. -/
def claimNormalizeEntry (info : List Char) : List Char :=
  let normalized := jsTrim (jsToLower info)
  if normalized.contains '@' then normalized.takeWhile (· ≠ '@') else normalized

/-- Claim C9 taken literally, as the pass/fail verdict: pass iff the list
is empty, the password is empty, or no normalized entry of length ≥ 3 is a
substring of the lower-cased password. -/
def claimPersonalInfoPasses (password : List Char) (options : ValidatorOptions) : Bool :=
  let personalInfo := options.personalInfo.getD []
  if personalInfo.isEmpty || password.isEmpty then true
  else
    !(personalInfo.any fun info =>
      let normalized := claimNormalizeEntry info
      (3 ≤ normalized.length : Bool) && jsIncludes (jsToLower password) normalized)

/-- Claim C9's normalization as amended: an entry containing `@` at a
position after the first character is replaced by the substring before the
first `@`; an entry whose first character is `@` is kept whole. -/
def amendedNormalizeEntry (info : List Char) : List Char :=
  let normalized := jsTrim (jsToLower info)
  if normalized.contains '@' then
    if normalized.head? = some '@' then normalized
    else normalized.takeWhile (· ≠ '@')
  else normalized

/-- Claim C9 as amended, as the pass/fail verdict. -/
def amendedPersonalInfoPasses (password : List Char) (options : ValidatorOptions) : Bool :=
  let personalInfo := options.personalInfo.getD []
  if personalInfo.isEmpty || password.isEmpty then true
  else
    !(personalInfo.any fun info =>
      let normalized := amendedNormalizeEntry info
      (3 ≤ normalized.length : Bool) && jsIncludes (jsToLower password) normalized)

/-! ## Helper lemmas -/

/-- Boolean `jsIncludes` decides substring containment. -/
theorem jsIncludes_substring (hay needle : List Char) :
    jsIncludes hay needle = true ↔ needle <:+: hay := by
  induction hay with
  | nil =>
    simp [jsIncludes, List.isEmpty_iff, List.infix_nil]
  | cons c t ih =>
    simp only [jsIncludes, Bool.or_eq_true, ih, List.isPrefixOf_iff_prefix]
    constructor
    · rintro (h | h)
      · exact h.isInfix
      · exact h.trans (List.suffix_cons c t).isInfix
    · intro h
      rcases h with ⟨s, u, hsu⟩
      cases s with
      | nil =>
        exact Or.inl ⟨u, by simpa using hsu⟩
      | cons x s' =>
        rw [List.cons_append, List.cons_append, List.cons.injEq] at hsu
        exact Or.inr ⟨s', u, hsu.2⟩

/-- A string that extends a non-empty prefix is non-empty. -/
theorem append_ne_empty_of_left (a b : String) (ha : a ≠ "") : a ++ b ≠ "" := by
  intro h
  apply ha
  have hlen := congrArg String.length h
  rw [String.length_append] at hlen
  have : a.length = 0 := by
    have : ("" : String).length = 0 := rfl
    omega
  cases a with
  | mk data =>
    cases data with
    | nil => rfl
    | cons c cs => simp [String.length, List.length] at this

/-- The repetition scan over a constant string: it survives `j` further
copies of the current character iff the counter never exceeds the limit,
i.e. iff `j = 0` or `count + j ≤ maxRepeatedChars`. -/
theorem repScan_replicate (maxR : Int) (c : Char) (j : Nat) :
    ∀ count : Nat,
      (repScan maxR (List.replicate j c) c count = true ↔
        (j = 0 ∨ ((count : Int) + j ≤ maxR))) := by
  induction j with
  | zero => intro count; simp [repScan]
  | succ n ih =>
    intro count
    rw [List.replicate_succ]
    simp only [repScan]
    rw [if_pos trivial]
    split
    · next h =>
      simp only [Bool.false_eq_true, false_iff, not_or]
      push_cast at h ⊢
      simp only [not_false_iff, true_and]
      omega
    · next h =>
      rw [ih (count + 1)]
      push_cast at h ⊢
      simp only [false_or]
      omega

/-- The ascending / descending step-1 window condition, stated over
character codes in `Nat`. -/
def seqWindow (c1 c2 c3 : Char) : Prop :=
  (c2.toNat = c1.toNat + 1 ∧ c3.toNat = c2.toNat + 1) ∨
  (c1.toNat = c2.toNat + 1 ∧ c2.toNat = c3.toNat + 1)

/-- The scan `hasSequentialPattern` finds exactly the three-character windows with
strictly ascending or strictly descending step-1 character codes. -/
theorem hasSequentialPattern_iff (l : List Char) :
    hasSequentialPattern l = true ↔
      ∃ c1 c2 c3 : Char, [c1, c2, c3] <:+: l ∧ seqWindow c1 c2 c3 := by
  induction l with
  | nil =>
    simp only [hasSequentialPattern, Bool.false_eq_true, false_iff, not_exists]
    intro c1 c2 c3 h
    have := h.1.length_le
    simp at this
  | cons a t ih =>
    cases t with
    | nil =>
      simp only [hasSequentialPattern, Bool.false_eq_true, false_iff, not_exists]
      intro c1 c2 c3 h
      have := h.1.length_le
      simp at this
    | cons b u =>
      cases u with
      | nil =>
        simp only [hasSequentialPattern, Bool.false_eq_true, false_iff, not_exists]
        intro c1 c2 c3 h
        have := h.1.length_le
        simp at this
      | cons d v =>
        constructor
        · intro h
          simp only [hasSequentialPattern] at h
          split at h
          · next hc =>
            have hp : [a, b, d] <+: a :: b :: d :: v := ⟨v, rfl⟩
            exact ⟨a, b, d, hp.isInfix, Or.inl (by omega)⟩
          · split at h
            · next hc =>
              have hp : [a, b, d] <+: a :: b :: d :: v := ⟨v, rfl⟩
              exact ⟨a, b, d, hp.isInfix, Or.inr (by omega)⟩
            · rcases ih.mp h with ⟨c1, c2, c3, hinf, hw⟩
              exact ⟨c1, c2, c3, hinf.trans (List.suffix_cons a _).isInfix, hw⟩
        · rintro ⟨c1, c2, c3, hinf, hw⟩
          rw [ List.infix_cons_iff] at hinf
          rcases hinf with hpre | hinf
          · rw [ List.cons_prefix_cons] at hpre
            obtain ⟨rfl, hpre⟩ := hpre
            rw [ List.cons_prefix_cons] at hpre
            obtain ⟨rfl, hpre⟩ := hpre
            rw [ List.cons_prefix_cons] at hpre
            obtain ⟨rfl, -⟩ := hpre
            simp only [hasSequentialPattern]
            split
            · rfl
            · split
              · rfl
              · next h1 h2 =>
                exfalso
                rcases hw with hw | hw <;> [exact h1 (by omega); exact h2 (by omega)]
          · simp only [hasSequentialPattern]
            split
            · rfl
            · split
              · rfl
              · exact ih.mpr ⟨c1, c2, c3, hinf, hw⟩

/-- The keyboard-pattern loop returns a match iff some table entry is
contained forward or reversed: every match produces the same failure, so
the first-match scan agrees with `any`. -/
theorem kbScan_eq_any (lower : List Char) (pats : List (List Char)) :
    kbScan lower pats =
      pats.any fun pat => jsIncludes lower pat || jsIncludes lower pat.reverse := by
  induction pats with
  | nil => rfl
  | cons pat rest ih =>
    simp only [kbScan, List.any_cons]
    split
    · next h => simp [h]
    · split
      · next h => simp [h]
      · next h1 h2 => simp [h1, h2, ih]

/-- A search over characters containing a match reports some index, for
any start value of the accumulator. -/
theorem findIdx?_some_of_mem (l : List Char) (h : '@' ∈ l) :
    ∀ i, ∃ j, List.findIdx? (· = '@') l i = some j := by
  induction l with
  | nil => simp at h
  | cons c t ih =>
    intro i
    by_cases hc : c = '@'
    · exact ⟨i, by rw [List.findIdx?_cons, if_pos (by simp [hc])]⟩
    · have hmem : '@' ∈ t := by
        rcases List.mem_cons.mp h with h' | h'
        · exact absurd h'.symm hc
        · exact h'
      obtain ⟨j, hj⟩ := ih hmem (i + 1)
      exact ⟨j, by rw [List.findIdx?_cons, if_neg (by simp [hc])]; exact hj⟩

/-- When the search does match, the prefix before the reported index is the
`takeWhile` of the negated predicate. -/
theorem take_findIdx?_eq_takeWhile (l : List Char) :
    ∀ i j, List.findIdx? (· = '@') l i = some j →
      i ≤ j ∧ l.take (j - i) = l.takeWhile (· ≠ '@') := by
  induction l with
  | nil => intro i j h; exact absurd h (by simp [List.findIdx?])
  | cons c t ih =>
    intro i j h
    rw [List.findIdx?_cons] at h
    by_cases hc : c = '@'
    · rw [if_pos (by simp [hc])] at h
      obtain rfl : i = j := by simpa using h
      subst hc
      simp [List.takeWhile_cons]
    · rw [if_neg (by simp [hc])] at h
      obtain ⟨hij, htake⟩ := ih (i + 1) j h
      refine ⟨by omega, ?_⟩
      have hji : j - i = (j - (i + 1)) + 1 := by omega
      rw [hji, List.take_succ_cons, htake, List.takeWhile_cons, if_pos (by simp [hc])]

/-- Unfolding `extractUsername` in terms of the reported index of the first `@`. -/
theorem extractUsername_eq_match (l : List Char) :
    extractUsername l =
      match List.findIdx? (· = '@') l 0 with
      | some j => if 0 < j then l.take j else l
      | none => l := by
  unfold extractUsername
  cases h : List.findIdx? (· = '@') l 0 with
  | some j => simp [h]
  | none => simp [h]

/-- The helper `extractUsername` strips from the first `@` only when the entry does
not start with `@`; `normalizePersonalInfo` therefore agrees with the
amended normalization. -/
theorem normalizePersonalInfo_eq_amended (info : List Char) :
    normalizePersonalInfo info = amendedNormalizeEntry info := by
  unfold normalizePersonalInfo amendedNormalizeEntry
  by_cases hc : (jsTrim (jsToLower info)).contains '@'
  · simp only [hc, if_true]
    generalize jsTrim (jsToLower info) = n at hc
    have hmem : '@' ∈ n := by simpa [List.elem_iff] using hc
    rw [extractUsername_eq_match]
    cases n with
    | nil => simp at hmem
    | cons c t =>
      by_cases hcat : c = '@'
      · subst hcat
        rw [List.findIdx?_cons, if_pos (by simp)]
        simp
      · have hmem' : '@' ∈ t := by
          rcases List.mem_cons.mp hmem with h' | h'
          · exact absurd h'.symm hcat
          · exact h'
        obtain ⟨j, hj⟩ := findIdx?_some_of_mem t hmem' 1
        rw [List.findIdx?_cons, if_neg (by simp [hcat]), hj]
        obtain ⟨h1j, htake⟩ := take_findIdx?_eq_takeWhile t 1 j hj
        have hhead : (c :: t).head? ≠ some '@' := by simp [hcat]
        rw [if_neg hhead]
        obtain ⟨j', rfl⟩ : ∃ j', j = j' + 1 := ⟨j - 1, by omega⟩
        simp only [show 0 < j' + 1 from Nat.succ_pos j', if_true]
        rw [List.take_succ_cons, List.takeWhile_cons, if_pos (by simp [hcat])]
        simpa using htake
  · have hnmem : '@' ∉ jsTrim (jsToLower info) := by
      simpa [List.elem_iff] using hc
    simp [hnmem]

/-- The personal-info loop fails iff some entry survives the length filter
and occurs in the password: first-match failure agrees with `any`. -/
theorem personalInfoScan_eq_any (lowerPw : List Char) (l : List (List Char)) :
    personalInfoScan lowerPw l =
      !(l.any fun info =>
        (decide (3 ≤ (normalizePersonalInfo info).length)) &&
        jsIncludes lowerPw (normalizePersonalInfo info)) := by
  induction l with
  | nil => rfl
  | cons info rest ih =>
    simp only [personalInfoScan, List.any_cons]
    by_cases hlen : (normalizePersonalInfo info).length < 3
    · rw [if_pos hlen, ih]
      have hd : decide (3 ≤ (normalizePersonalInfo info).length) = false := by
        simp; omega
      simp [hd]
    · rw [if_neg hlen]
      have hd : decide (3 ≤ (normalizePersonalInfo info).length) = true := by
        simp; omega
      by_cases hinc : jsIncludes lowerPw (normalizePersonalInfo info) = true
      · rw [if_pos hinc]
        simp [hd, hinc]
      · rw [if_neg hinc, ih]
        have hincf : jsIncludes lowerPw (normalizePersonalInfo info) = false := by
          simpa using hinc
        simp [hd, hincf]

/-- The probe test reads exactly one bit of the addressed word. -/
theorem testBitAt_eq_testBit (filter : List Nat) (hash : Nat) :
    testBitAt filter hash =
      Nat.testBit (wordOf filter (hash / BITS_PER_INT32)) (hash % BITS_PER_INT32) := by
  unfold testBitAt
  rw [Nat.shiftLeft_eq, one_mul, Nat.and_two_pow]
  cases h : Nat.testBit (wordOf filter (hash / BITS_PER_INT32)) (hash % BITS_PER_INT32) <;>
    simp [h]

/-- Every probe position is below the bit-array size. -/
theorem getHashes_lt (s : List Char) : ∀ p ∈ getHashes s, p < BLOOM_SIZE := by
  intro p hp
  unfold getHashes at hp
  simp only [List.mem_map] at hp
  obtain ⟨i, -, rfl⟩ := hp
  exact Nat.mod_lt _ (by norm_num [BLOOM_SIZE])

/-- Setting a bit does not change the array length. -/
theorem length_setBitAt (filter : List Nat) (hash : Nat) :
    (setBitAt filter hash).length = filter.length :=
  List.length_set filter _ _

/-- Folding bit-sets does not change the array length. -/
theorem length_foldl_setBitAt (L : List Nat) :
    ∀ filter : List Nat, (L.foldl setBitAt filter).length = filter.length := by
  induction L with
  | nil => intro filter; rfl
  | cons q L ih => intro filter; rw [List.foldl_cons, ih, length_setBitAt]

/-- The builder `add` does not change the array length. -/
theorem length_add (filter : List Nat) (s : List Char) :
    (add filter s).length = filter.length :=
  length_foldl_setBitAt _ filter

/-- Reading a word after a word update. -/
theorem wordOf_set (filter : List Nat) (i j w : Nat) :
    wordOf (filter.set i w) j =
      if i = j ∧ j < filter.length then w else wordOf filter j := by
  unfold wordOf
  by_cases hij : i = j
  · subst hij
    by_cases hi : i < filter.length
    · simp [List.getD_eq_getElem?_getD, List.getElem?_set_self, hi]
    · rw [List.set_eq_of_length_le (by omega)]
      simp [hi]
  · simp [List.getD_eq_getElem?_getD, List.getElem?_set_ne hij, hij]

/-- A freshly set bit reads back as set (the write is in bounds). -/
theorem testBitAt_setBitAt_self (filter : List Nat) (hash : Nat)
    (hb : hash / BITS_PER_INT32 < filter.length) :
    testBitAt (setBitAt filter hash) hash = true := by
  rw [testBitAt_eq_testBit]
  unfold setBitAt
  rw [wordOf_set, if_pos ⟨rfl, hb⟩, Nat.testBit_lor, Nat.shiftLeft_eq, one_mul,
    Nat.testBit_two_pow_self]
  simp

/-- Setting one bit never clears another. -/
theorem testBitAt_setBitAt_mono (filter : List Nat) (hash p : Nat)
    (h : testBitAt filter p = true) : testBitAt (setBitAt filter hash) p = true := by
  rw [testBitAt_eq_testBit] at h ⊢
  unfold setBitAt
  rw [wordOf_set]
  split
  · next heq =>
    rw [← heq.1] at h
    rw [Nat.testBit_lor, h, Bool.true_or]
  · exact h

/-- Bits survive a whole fold of bit-sets. -/
theorem testBitAt_foldl_setBitAt_mono (L : List Nat) :
    ∀ (filter : List Nat) (p : Nat), testBitAt filter p = true →
      testBitAt (L.foldl setBitAt filter) p = true := by
  induction L with
  | nil => intro filter p h; exact h
  | cons q L ih =>
    intro filter p h
    rw [List.foldl_cons]
    exact ih _ p (testBitAt_setBitAt_mono filter q p h)

/-- After folding bit-sets over a list of in-range positions, every one of
those positions reads back as set. -/
theorem testBitAt_foldl_setBitAt_self (L : List Nat) :
    ∀ filter : List Nat, (∀ q ∈ L, q / BITS_PER_INT32 < filter.length) →
      ∀ p ∈ L, testBitAt (L.foldl setBitAt filter) p = true := by
  induction L with
  | nil => intro filter _ p hp; simp at hp
  | cons q L ih =>
    intro filter hbound p hp
    rw [List.foldl_cons]
    rcases List.mem_cons.mp hp with rfl | hp'
    · exact testBitAt_foldl_setBitAt_mono L _ p
        (testBitAt_setBitAt_self filter p (hbound p (List.mem_cons_self p L)))
    · refine ih _ ?_ p hp'
      intro r hr
      rw [length_setBitAt]
      exact hbound r (List.mem_cons_of_mem q hr)

/-- Probe positions are in word-range for a 375-word array. -/
theorem getHashes_word_lt (s : List Char) (filter : List Nat)
    (hf : filter.length = ARRAY_SIZE) :
    ∀ q ∈ getHashes s, q / BITS_PER_INT32 < filter.length := by
  intro q hq
  have := getHashes_lt s q hq
  rw [hf]
  unfold BLOOM_SIZE at this
  unfold ARRAY_SIZE BLOOM_SIZE BITS_PER_INT32
  omega

/-- Immediately after `add`, every bit probed for the same string is set. -/
theorem test_add_self (filter : List Nat) (s : List Char)
    (hf : filter.length = ARRAY_SIZE) : test (add filter s) s = true := by
  unfold test add
  rw [List.all_eq_true]
  intro p hp
  exact testBitAt_foldl_setBitAt_self _ filter (getHashes_word_lt _ filter hf) p hp

/-- The builder `add` never makes a passing membership test fail. -/
theorem test_add_mono (filter : List Nat) (s s' : List Char)
    (h : test filter s' = true) : test (add filter s) s' = true := by
  unfold test at h ⊢
  unfold add
  rw [List.all_eq_true] at h ⊢
  intro p hp
  exact testBitAt_foldl_setBitAt_mono _ filter p (h p hp)

/-- A passing membership test survives any further sequence of `add`s. -/
theorem test_foldl_add_mono (corpus : List (List Char)) :
    ∀ (filter : List Nat) (s : List Char), test filter s = true →
      test (corpus.foldl add filter) s = true := by
  induction corpus with
  | nil => intro filter s h; exact h
  | cons c cs ih =>
    intro filter s h
    rw [List.foldl_cons]
    exact ih _ s (test_add_mono filter c s h)

/-- After `add`ing a whole corpus, every corpus member tests positive. -/
theorem test_foldl_add_of_mem (corpus : List (List Char)) :
    ∀ filter : List Nat, filter.length = ARRAY_SIZE →
      ∀ s ∈ corpus, test (corpus.foldl add filter) s = true := by
  induction corpus with
  | nil => intro filter _ s hs; simp at hs
  | cons c cs ih =>
    intro filter hf s hs
    rw [List.foldl_cons]
    rcases List.mem_cons.mp hs with rfl | hs'
    · exact test_foldl_add_mono cs (add filter s) s (test_add_self filter s hf)
    · exact ih (add filter c) (by rw [length_add, hf]) s hs'

/-- One step of the `hashString` loop equals the polynomial step
`hash*31 + charCode` wrapped to signed 32-bit. -/
theorem hashStep_eq (h : Int) (c : Nat) : hashStep h c = toInt32 (h * 31 + c) := by
  unfold hashStep toInt32
  omega

/-- The code's shift-based rolling hash is the claim's `hash*31 + charCode`
rolling hash. -/
theorem hashStringSigned_eq_spec (s : List Char) :
    ∀ seed : Int, hashStringSigned s seed = specRollingHash s seed := by
  induction s with
  | nil => intro seed; rfl
  | cons c t ih =>
    intro seed
    unfold hashStringSigned specRollingHash at *
    rw [List.foldl_cons, List.foldl_cons, hashStep_eq]
    exact ih _

/-- The code's probe positions are exactly the amended formula's. -/
theorem getHashes_eq_amended (s : List Char) : getHashes s = amendedPositions s := by
  unfold getHashes amendedPositions hashString HASH_COUNT BLOOM_SIZE
  rw [hashStringSigned_eq_spec, hashStringSigned_eq_spec]

/-- The suggestion-pushing fold appends exactly the messages of the
failing checks, provided no check carries an empty message (the code drops
a falsy message). -/
theorem foldl_pushSuggestion_eq (l : List ValidatorCheck) :
    ∀ acc : List String, (∀ c ∈ l, c.message ≠ some "") →
      l.foldl pushSuggestion acc =
        acc ++ l.filterMap (fun c => if c.passed then none else c.message) := by
  induction l with
  | nil => intro acc _; simp
  | cons c t ih =>
    intro acc h
    rw [List.foldl_cons, List.filterMap_cons]
    have hc : c.message ≠ some "" := h c (List.mem_cons_self c t)
    have ht : ∀ c' ∈ t, c'.message ≠ some "" :=
      fun c' hc' => h c' (List.mem_cons_of_mem c hc')
    by_cases hp : c.passed
    · rw [show pushSuggestion acc c = acc by unfold pushSuggestion; simp [hp],
        if_pos hp, ih acc ht]
    · rw [if_neg hp]
      cases hm : c.message with
      | none =>
        rw [show pushSuggestion acc c = acc by unfold pushSuggestion; simp [hp, hm]]
        exact ih acc ht
      | some m =>
        have hmne : m ≠ "" := fun he => hc (he ▸ hm)
        rw [show pushSuggestion acc c = acc ++ [m] by
            unfold pushSuggestion; simp [hp, hm, hmne],
          ih (acc ++ [m]) ht]
        simp

/-- The check `validateLength` never reports an empty message. -/
theorem validateLength_message_ne (p : List Char) (o : ValidatorOptions) :
    (validateLength p o).message ≠ some "" := by
  unfold validateLength
  dsimp only
  split
  · refine fun h => append_ne_empty_of_left _ _ (append_ne_empty_of_left _ _ ?_)
      (Option.some.inj h)
    decide
  · split
    · refine fun h => append_ne_empty_of_left _ _ (append_ne_empty_of_left _ _ ?_)
        (Option.some.inj h)
      decide
    · simp

/-- The check `validateCharacterTypes` never reports an empty message. -/
theorem validateCharacterTypes_message_ne (p : List Char) (o : ValidatorOptions) :
    (validateCharacterTypes p o).message ≠ some "" := by
  unfold validateCharacterTypes
  dsimp only
  split
  · refine fun h => append_ne_empty_of_left _ _ ?_ (Option.some.inj h)
    decide
  · simp

/-- The check `validateRepetition` never reports an empty message. -/
theorem validateRepetition_message_ne (p : List Char) (o : ValidatorOptions) :
    (validateRepetition p o).message ≠ some "" := by
  unfold validateRepetition
  dsimp only
  split
  · simp
  · split
    · simp
    · refine fun h => append_ne_empty_of_left _ _ (append_ne_empty_of_left _ _ ?_)
        (Option.some.inj h)
      decide

/-- The check `validateSequential` never reports an empty message. -/
theorem validateSequential_message_ne (p : List Char) (o : ValidatorOptions) :
    (validateSequential p o).message ≠ some "" := by
  unfold validateSequential
  dsimp only
  split
  · simp
  · split
    · exact fun h => by simpa using Option.some.inj h
    · simp

/-- The check `validateCommonPassword` never reports an empty message. -/
theorem validateCommonPassword_message_ne (buckets : List Nat) (p : List Char)
    (o : ValidatorOptions) : (validateCommonPassword buckets p o).message ≠ some "" := by
  unfold validateCommonPassword
  dsimp only
  split
  · simp
  · split
    · exact fun h => by simpa using Option.some.inj h
    · simp

/-- The check `validatePersonalInfo` never reports an empty message. -/
theorem validatePersonalInfo_message_ne (p : List Char) (o : ValidatorOptions) :
    (validatePersonalInfo p o).message ≠ some "" := by
  unfold validatePersonalInfo
  dsimp only
  split
  · simp
  · split
    · simp
    · exact fun h => by simpa using Option.some.inj h

/-- The check `validateKeyboardPattern` never reports an empty message. -/
theorem validateKeyboardPattern_message_ne (p : List Char) (o : ValidatorOptions) :
    (validateKeyboardPattern p o).message ≠ some "" := by
  unfold validateKeyboardPattern
  dsimp only
  split
  · simp
  · split
    · exact fun h => by simpa using Option.some.inj h
    · simp

/-- All seven run-order results carry non-empty messages. -/
theorem runOrderResults_message_ne (buckets : List Nat) (password : List Char)
    (options : ValidatorOptions) :
    ∀ c ∈ runOrderResults buckets password options, c.message ≠ some "" := by
  intro c hc
  unfold runOrderResults at hc
  simp only [List.mem_cons, List.not_mem_nil, or_false] at hc
  rcases hc with rfl | rfl | rfl | rfl | rfl | rfl | rfl
  · exact validateLength_message_ne password options
  · exact validateCharacterTypes_message_ne password options
  · exact validateRepetition_message_ne password options
  · exact validateSequential_message_ne password options
  · exact validateCommonPassword_message_ne buckets password options
  · exact validatePersonalInfo_message_ne password options
  · exact validateKeyboardPattern_message_ne password options

/-! ## Claims -/

/-- C4, counterexample: the claim `validateLength(p, {minLength: m}).passed
== (len(p) >= m)` fails at `p` = 129 copies of `'a'`, `m = 1`: the length
is ≥ 1 but the check fails on the default `maxLength = 128`. -/
theorem claim_C4_counterexample :
    ¬((validateLength (List.replicate 129 'a') { minLength := some 1 }).passed = true ↔
      (1 : Int) ≤ ((List.replicate 129 'a').length : Int)) := by
  simp only [validateLength, List.length_replicate]
  norm_num

/-- C4, amended: for every password `p` and number `m`,
`validateLength(p, {minLength: m}).passed == (len(p) >= m && len(p) <= 128)`
— the default `maxLength = 128` also applies. -/
theorem claim_C4_length (password : List Char) (m : Int) :
    ((validateLength password { minLength := some m }).passed = true ↔
      (m ≤ (password.length : Int) ∧ (password.length : Int) ≤ 128)) := by
  simp only [validateLength, Option.getD_some, Option.getD_none]
  split
  · next h =>
    simp only [Bool.false_eq_true, false_iff, not_and]
    omega
  · split
    · next h =>
      simp only [Bool.false_eq_true, false_iff, not_and]
      omega
    · next h1 h2 =>
      simp only [true_iff]
      omega

/-- C5, counterexample: the claim "`validateRepetition(s, {maxRepeatedChars:
r})` fails iff `k > r`" fails at `r = 0` and the single-character string
`s = "a"`: `k = 1 > 0` yet the check passes (the scan never increments the
counter). -/
theorem claim_C5_counterexample :
    ¬((validateRepetition (List.replicate 1 'a') { maxRepeatedChars := some 0 }).passed = false ↔
      ((0 : Int) < ((1 : Nat) : Int))) := by
  decide

/-- C5, amended: on a string of `k` copies of one character,
`validateRepetition` with limit `r` fails iff `k > r` *and* `k ≥ 2`; in
particular the empty and every single-character input always pass. -/
theorem claim_C5_repetition (r : Int) (c : Char) (k : Nat) :
    ((validateRepetition (List.replicate k c) { maxRepeatedChars := some r }).passed = false ↔
      (r < (k : Int) ∧ 2 ≤ k)) := by
  cases k with
  | zero => simp [validateRepetition, List.replicate]
  | succ n =>
    rw [List.replicate_succ]
    simp only [validateRepetition, Option.getD_some]
    split
    · next h =>
      rw [repScan_replicate] at h
      simp only [Bool.true_eq_false, false_iff, not_and]
      push_cast at h ⊢
      omega
    · next h =>
      rw [repScan_replicate] at h
      push_cast [not_or] at h ⊢
      simp only [iff_true_intro rfl, true_iff]
      omega

/-- C6: with `checkSequential = false` every password passes with no
message; with the check enabled, `validateSequential` fails exactly when
some window of three consecutive characters is strictly ascending or
strictly descending with step 1; in particular "abc" and "cba" fail,
"abd" passes, and "AbC" passes (case-sensitive). -/
theorem claim_C6_sequential :
    (∀ (password : List Char) (options : ValidatorOptions),
        options.checkSequential = some false →
        validateSequential password options = { passed := true, message := none }) ∧
    (∀ (password : List Char) (options : ValidatorOptions),
        options.checkSequential.getD true = true →
        ((validateSequential password options).passed = false ↔
          ∃ c1 c2 c3 : Char, [c1, c2, c3] <:+: password ∧ seqWindow c1 c2 c3)) ∧
    (validateSequential ("abc".toList) {}).passed = false ∧
    (validateSequential ("cba".toList) {}).passed = false ∧
    (validateSequential ("abd".toList) {}).passed = true ∧
    (validateSequential ("AbC".toList) {}).passed = true := by
  refine ⟨?_, ?_, by decide, by decide, by decide, by decide⟩
  · intro password options h
    simp [validateSequential, h]
  · intro password options h
    have hs : (validateSequential password options).passed = !hasSequentialPattern password := by
      simp only [validateSequential, h]
      split
      · simp_all
      · split <;> simp_all
    cases hseq : hasSequentialPattern password with
    | true => simpa [hs, hseq] using (hasSequentialPattern_iff password).mp hseq
    | false =>
      simp only [hs, hseq, Bool.not_false, Bool.true_eq_false, false_iff, not_exists]
      intro c1 c2 c3 hcontra
      have : hasSequentialPattern password = true :=
        (hasSequentialPattern_iff password).mpr ⟨c1, c2, c3, hcontra⟩
      simp [hseq] at this

/-- C6, witness: the disabled-toggle clause at "abc", and the window
characterization at "abc" with default options. -/
theorem claim_C6_witness :
    validateSequential ("abc".toList) { checkSequential := some false } =
      { passed := true, message := none } ∧
    ((validateSequential ("abc".toList) {}).passed = false ↔
      ∃ c1 c2 c3 : Char, [c1, c2, c3] <:+: ("abc".toList) ∧ seqWindow c1 c2 c3) :=
  ⟨claim_C6_sequential.1 ("abc".toList) { checkSequential := some false } rfl,
   claim_C6_sequential.2.1 ("abc".toList) {} rfl⟩

/-- C10: the pattern table contains the two-character entry "0p", every
other entry has at least three characters, and (entries being tested
forward and reversed against the lower-cased password) every password
whose lower-cased form contains "0p" or "p0" fails `validateKeyboardPattern`
whenever `checkKeyboardPatterns` is enabled, which is the default. -/
theorem claim_C10_keyboard :
    ("0p".toList ∈ KEYBOARD_PATTERNS) ∧
    (∀ e ∈ KEYBOARD_PATTERNS, e ≠ "0p".toList → 3 ≤ e.length) ∧
    (∀ (password : List Char) (options : ValidatorOptions),
        options.checkKeyboardPatterns.getD true = true →
        (jsIncludes (jsToLower password) ("0p".toList) = true ∨
         jsIncludes (jsToLower password) ("p0".toList) = true) →
        validateKeyboardPattern password options =
          { passed := false, message := some "Password contains common keyboard patterns" }) := by
  refine ⟨by decide, by decide, ?_⟩
  intro password options htoggle hinc
  have hk : kbScan (jsToLower password) KEYBOARD_PATTERNS = true := by
    rw [kbScan_eq_any, List.any_eq_true]
    refine ⟨"0p".toList, by decide, ?_⟩
    simp only [Bool.or_eq_true]
    rcases hinc with h | h
    · exact Or.inl (by simpa using h)
    · exact Or.inr (by simpa using h)
  simp [validateKeyboardPattern, htoggle, hk]

/-- C10, witness: "x0py" with default options fails the keyboard check. -/
theorem claim_C10_witness :
    validateKeyboardPattern ("x0py".toList) {} =
      { passed := false, message := some "Password contains common keyboard patterns" } :=
  claim_C10_keyboard.2.2 ("x0py".toList) {} rfl (Or.inl (by decide))

/-- C9, counterexample: for the entry "@foo" (an `@` at position 0) the
claim's normalization yields the empty local part, which is skipped, so
the claim predicts a pass for password "x@fooy"; the code's
`extractUsername` only strips when `indexOf('@') > 0`, keeps "@foo" whole,
finds it in the password and fails. -/
theorem claim_C9_counterexample :
    claimPersonalInfoPasses ("x@fooy".toList)
        { personalInfo := some ["@foo".toList] } = true ∧
    (validatePersonalInfo ("x@fooy".toList)
        { personalInfo := some ["@foo".toList] }).passed = false := by
  decide

/-- C9, amended: `validatePersonalInfo` passes iff the list is empty, the
password is empty, or no entry — lower-cased, trimmed, replaced by its
part before the first `@` when it contains `@` at a position after the
first character (an entry starting with `@` is kept whole), and skipped
when shorter than 3 characters — is a substring of the lower-cased
password. -/
theorem claim_C9_personal_info (password : List Char) (options : ValidatorOptions) :
    (validatePersonalInfo password options).passed =
      amendedPersonalInfoPasses password options := by
  unfold validatePersonalInfo amendedPersonalInfoPasses
  cases hl : options.personalInfo.getD [] with
  | nil => simp
  | cons e es =>
    cases password with
    | nil => simp
    | cons p ps =>
      simp only [List.length_cons, List.isEmpty_cons, Nat.succ_ne_zero, beq_iff_eq,
        Bool.or_self, if_neg, Bool.false_or]
      rw [personalInfoScan_eq_any]
      simp only [normalizePersonalInfo_eq_amended]
      cases hany : ((e :: es).any fun info =>
          decide (3 ≤ (amendedNormalizeEntry info).length) &&
          jsIncludes (jsToLower (p :: ps)) (amendedNormalizeEntry info)) <;>
        simp [hany]

/-- C7, counterexample: for "password" the code's probe positions are not
`(h1 + i*h2) mod m` on the signed hashes — the code first takes `Math.abs`
of each hash and wraps the sum to unsigned 32-bit — and on a bucket array
holding exactly the bits at the claim's positions, the claim's query
answers true while the code's `mightBeCommon` answers false. -/
theorem claim_C7_counterexample :
    ((getHashes (jsToLower ("password".toList))).map (fun p => (p : Int)) ≠
      claimPositions (jsToLower ("password".toList))) ∧
    claimMightContain claimOnlyBuckets ("password".toList) = true ∧
    mightBeCommon claimOnlyBuckets ("password".toList) = false := by
  set_option maxRecDepth 40000 in decide

/-- C7, amended: `mightBeCommon` lower-cases its input and derives the
`k = 7` probe positions as `((|h1| + i*|h2|) mod 2^32) mod 12000`, where
`h1`, `h2` are the signed 32-bit `hash*31 + charCode` rolling hashes of
the lower-cased string (seeds 0 and 1) and `|·|` is `Math.abs`; it returns
true iff the addressed bit `p % 32` of packed word `p / 32` is set for
every position `p`. -/
theorem claim_C7_bloom_query (buckets : List Nat) (password : List Char) :
    mightBeCommon buckets password = amendedMightContain buckets password := by
  unfold mightBeCommon amendedMightContain
  rw [getHashes_eq_amended]
  have hfun : (testBitAt buckets) =
      fun p => Nat.testBit (wordOf buckets (p / 32)) (p % 32) := by
    funext p
    rw [testBitAt_eq_testBit]
    rfl
  rw [hfun]

/-- C8: zero false negatives — after `add`ing every corpus entry into the
fresh filter, the construction-time verification loop finds no missing
entry, and `test` returns true for every corpus member. -/
theorem claim_C8_no_false_negatives (corpus : List (List Char)) :
    ((corpus.filter fun p => !(test (corpus.foldl add bloomInit) p)) = []) ∧
    (∀ s ∈ corpus, test (corpus.foldl add bloomInit) s = true) := by
  have hmem : ∀ s ∈ corpus, test (corpus.foldl add bloomInit) s = true :=
    test_foldl_add_of_mem corpus bloomInit (List.length_replicate _ _)
  refine ⟨List.filter_eq_nil_iff.mpr ?_, hmem⟩
  intro s hs
  rw [hmem s hs]
  simp

/-- C8, witness: the singleton corpus ["password"]. -/
theorem claim_C8_witness :
    test (([("password".toList)]).foldl add bloomInit) ("password".toList) = true :=
  (claim_C8_no_false_negatives [("password".toList)]).2 ("password".toList)
    (List.mem_singleton.mpr rfl)

/-- C1: the score is `min(4, floor(passedCount * 5 / 7))` over the seven
check booleans; hence `0 ≤ score ≤ 4`, and `score = 4` exactly when at
least 6 of the 7 checks pass. -/
theorem claim_C1_score (buckets : List Nat) (password : List Char)
    (options : ValidatorOptions) :
    (validatePassword buckets password options).score =
      min 4 ((((validatePassword buckets password options).checks.map Prod.snd).countP
        (fun b => b)) * 5 / 7) ∧
    (validatePassword buckets password options).score ≤ 4 ∧
    ((validatePassword buckets password options).score = 4 ↔
      6 ≤ ((validatePassword buckets password options).checks.map Prod.snd).countP
        (fun b => b)) := by
  have hscore : (validatePassword buckets password options).score =
      min 4 ((((validatePassword buckets password options).checks.map Prod.snd).countP
        (fun b => b)) * 5 / 7) := rfl
  have hlen : ((validatePassword buckets password options).checks.map Prod.snd).length = 7 :=
    rfl
  have hle : (((validatePassword buckets password options).checks.map Prod.snd).countP
      (fun b => b)) ≤ 7 := hlen ▸ List.countP_le_length _
  exact ⟨hscore, by rw [hscore]; omega, by rw [hscore]; omega⟩

/-- C2: `checks` holds exactly the seven fixed keys in the record's order;
a check disabled by its toggle reports `passed = true`; `valid` is the
conjunction of all seven check booleans; and `strength` indexes the fixed
five-label table by `score`. -/
theorem claim_C2_report_invariants (buckets : List Nat) (password : List Char)
    (options : ValidatorOptions) :
    ((validatePassword buckets password options).checks.map Prod.fst =
      ["length", "characterTypes", "repetition", "sequential", "keyboardPattern",
       "commonPassword", "personalInfo"]) ∧
    (options.checkSequential = some false →
      (validatePassword buckets password options).checks.lookup "sequential" = some true) ∧
    (options.checkKeyboardPatterns = some false →
      (validatePassword buckets password options).checks.lookup "keyboardPattern" = some true) ∧
    (options.checkCommonPasswords = some false →
      (validatePassword buckets password options).checks.lookup "commonPassword" = some true) ∧
    ((validatePassword buckets password options).valid = true ↔
      ∀ kv ∈ (validatePassword buckets password options).checks, kv.2 = true) ∧
    ((validatePassword buckets password options).strength =
      ["very-weak", "weak", "medium", "strong", "very-strong"].getD
        (validatePassword buckets password options).score "very-weak") := by
  refine ⟨rfl, ?_, ?_, ?_, ?_, rfl⟩
  · intro h
    have hseq : validateSequential password options = { passed := true, message := none } := by
      simp [validateSequential, h]
    have hlk : (validatePassword buckets password options).checks.lookup "sequential" =
        some (validateSequential password options).passed := rfl
    rw [hlk, hseq]
  · intro h
    have hkb : validateKeyboardPattern password options =
        { passed := true, message := none } := by
      simp [validateKeyboardPattern, h]
    have hlk : (validatePassword buckets password options).checks.lookup "keyboardPattern" =
        some (validateKeyboardPattern password options).passed := rfl
    rw [hlk, hkb]
  · intro h
    have hcp : validateCommonPassword buckets password options =
        { passed := true, message := none } := by
      simp [validateCommonPassword, h]
    have hlk : (validatePassword buckets password options).checks.lookup "commonPassword" =
        some (validateCommonPassword buckets password options).passed := rfl
    rw [hlk, hcp]
  · have hv : (validatePassword buckets password options).valid =
        ((validatePassword buckets password options).checks.map Prod.snd).all
          (fun b => b) := rfl
    rw [hv, List.all_eq_true]
    constructor
    · intro h kv hkv
      exact h kv.2 (List.mem_map.mpr ⟨kv, hkv, rfl⟩)
    · intro h b hb
      obtain ⟨kv, hkv, rfl⟩ := List.mem_map.mp hb
      exact h kv hkv

/-- C2, witness: with all three toggles off, all three disabled checks
report `passed = true` (at password "abc" over the empty filter). -/
theorem claim_C2_witness :
    ((validatePassword bloomInit ("abc".toList)
        { checkSequential := some false, checkKeyboardPatterns := some false,
          checkCommonPasswords := some false }).checks.lookup "sequential" = some true) ∧
    ((validatePassword bloomInit ("abc".toList)
        { checkSequential := some false, checkKeyboardPatterns := some false,
          checkCommonPasswords := some false }).checks.lookup "keyboardPattern" = some true) ∧
    ((validatePassword bloomInit ("abc".toList)
        { checkSequential := some false, checkKeyboardPatterns := some false,
          checkCommonPasswords := some false }).checks.lookup "commonPassword" = some true) :=
  ⟨(claim_C2_report_invariants bloomInit ("abc".toList) _).2.1 rfl,
   (claim_C2_report_invariants bloomInit ("abc".toList) _).2.2.1 rfl,
   (claim_C2_report_invariants bloomInit ("abc".toList) _).2.2.2.1 rfl⟩

/-- C3: the suggestions are exactly the messages of the failing checks in
run order (length, character-types, repetition, sequential,
common-password, personal-info, keyboard-pattern), and the warning is the
head of the suggestions — present iff some suggestion exists. -/
theorem claim_C3_suggestions (buckets : List Nat) (password : List Char)
    (options : ValidatorOptions) :
    ((validatePassword buckets password options).feedback.suggestions =
      (runOrderResults buckets password options).filterMap
        (fun c => if c.passed then none else c.message)) ∧
    ((validatePassword buckets password options).feedback.warning =
      (validatePassword buckets password options).feedback.suggestions.head?) := by
  have hsug : (validatePassword buckets password options).feedback.suggestions =
      (runOrderResults buckets password options).foldl pushSuggestion [] := rfl
  have heq : (runOrderResults buckets password options).foldl pushSuggestion [] =
      (runOrderResults buckets password options).filterMap
        (fun c => if c.passed then none else c.message) := by
    rw [foldl_pushSuggestion_eq _ [] (runOrderResults_message_ne buckets password options)]
    simp
  refine ⟨hsug.trans heq, ?_⟩
  have hwarn : (validatePassword buckets password options).feedback.warning =
      (if ((runOrderResults buckets password options).foldl pushSuggestion []).length > 0
       then ((runOrderResults buckets password options).foldl pushSuggestion []).head?
       else none) := rfl
  rw [hwarn, hsug]
  cases (runOrderResults buckets password options).foldl pushSuggestion [] <;> simp

end Sentinel
